import Mathlib

/-!
Verification development for the from-scratch deep-learning library
(`deep_learning.py`): tensors as uniformly nested rational arrays, the
layer hierarchy (Sigmoid, Tanh, Relu, Linear, Dropout, Sequential),
the SoftmaxCrossEntropy loss and the Momentum optimizer.

Floating-point numbers are modelled as exact rationals.  Transcendental
scalar functions (`math.exp`, `math.log`, `inverse_normal_cdf`) are
modelled as explicit function parameters `exp`, `log`, `invCdf`; the
stream produced by `random.random()` is modelled as a function
`rand : ℕ → ℚ` together with a counter threaded through the
computation.  Python exceptions are modelled by `Except Err` / `Option`
results.
-/

namespace DL

/-- A tensor is a uniformly nested numeric array: either a flat vector of
numbers (rank 1) or a list of sub-tensors (rank ≥ 2).  Mirrors
`Tensor = list` in `deep_learning.py`. -/
inductive Tensor where
  | vec : List ℚ → Tensor
  | ten : List Tensor → Tensor

mutual
/-- Source `tensor_apply`: `tensor_apply f t` applies `f` element-wise (source: `tensor_apply`). -/
def tensor_apply (f : ℚ → ℚ) : Tensor → Tensor
  | .vec xs => .vec (xs.map f)
  | .ten ts => .ten (tensor_applyList f ts)
termination_by structural t => t

/-- Element-wise application on a list of sub-tensors (the source's
`[tensor_apply(f, tensor_i) for tensor_i in tensor]`). -/
def tensor_applyList (f : ℚ → ℚ) : List Tensor → List Tensor
  | [] => []
  | t :: ts => tensor_apply f t :: tensor_applyList f ts
termination_by structural ts => ts
end

/-- Source `zero_like`: tensor of the same shape, all zeros. -/
def zero_like (t : Tensor) : Tensor := tensor_apply (fun _ => 0) t

mutual
/-- Source `tensor_sum`: sum of all leaves. -/
def tensor_sum : Tensor → ℚ
  | .vec xs => xs.sum
  | .ten ts => tensor_sumList ts
termination_by structural t => t

/-- Sum over a list of sub-tensors. -/
def tensor_sumList : List Tensor → ℚ
  | [] => 0
  | t :: ts => tensor_sum t + tensor_sumList ts
termination_by structural ts => ts
end

mutual
/-- Source `tensor_combine`: `tensor_combine f t1 t2` applies `f` to
corresponding elements.  The source zips lists, which *truncates to the
shorter operand* at every level; applying `f` to a number and a list
(mismatched ranks) raises a `TypeError` in Python, modelled as `none`. -/
def tensor_combine (f : ℚ → ℚ → ℚ) : Tensor → Tensor → Option Tensor
  | .vec xs, .vec ys => some (.vec (List.zipWith f xs ys))
  | .ten ts, .ten us => (tensor_combineList f ts us).map .ten
  | _, _ => none
termination_by structural t => t

/-- Element-wise combination of two lists of sub-tensors; like Python's
`zip`, stops at the shorter list. -/
def tensor_combineList (f : ℚ → ℚ → ℚ) : List Tensor → List Tensor → Option (List Tensor)
  | t :: ts, u :: us => do
      let r ← tensor_combine f t u
      let rs ← tensor_combineList f ts us
      pure (r :: rs)
  | _, _ => some []
termination_by structural ts => ts
end

mutual
/-- Total element-wise combination (zip-shortest, first operand on
mismatched ranks); used to state what `tensor_combine` computes when it
succeeds. -/
def combineTotal (f : ℚ → ℚ → ℚ) : Tensor → Tensor → Tensor
  | .vec xs, .vec ys => .vec (List.zipWith f xs ys)
  | .ten ts, .ten us => .ten (combineTotalList f ts us)
  | t, _ => t
termination_by structural t => t

/-- Total element-wise combination on lists of sub-tensors. -/
def combineTotalList (f : ℚ → ℚ → ℚ) : List Tensor → List Tensor → List Tensor
  | t :: ts, u :: us => combineTotal f t u :: combineTotalList f ts us
  | _, _ => []
termination_by structural ts => ts
end

mutual
/-- Shape equality of two tensors (same rank structure, same lengths at
every level). -/
def sameShape : Tensor → Tensor → Bool
  | .vec xs, .vec ys => xs.length == ys.length
  | .ten ts, .ten us => sameShapeList ts us
  | _, _ => false
termination_by structural t => t

/-- Shape equality of two lists of sub-tensors, position by position. -/
def sameShapeList : List Tensor → List Tensor → Bool
  | [], [] => true
  | t :: ts, u :: us => sameShape t u && sameShapeList ts us
  | _, _ => false
termination_by structural ts => ts
end

mutual
/-- The flat list of scalar leaves of a tensor, left to right. -/
def tensorLeaves : Tensor → List ℚ
  | .vec xs => xs
  | .ten ts => tensorLeavesList ts
termination_by structural t => t

/-- The flat list of scalar leaves of a list of sub-tensors. -/
def tensorLeavesList : List Tensor → List ℚ
  | [] => []
  | t :: ts => tensorLeaves t ++ tensorLeavesList ts
termination_by structural ts => ts
end

/-- Kinds of Python exceptions the library can raise:
`shape` for `TypeError`/`IndexError`/`AssertionError` caused by
incompatible tensor shapes, `attr` for `AttributeError` (a cached value
read before any `forward`/`backward` created it), `mode` for the
`RuntimeError` raised by `Dropout.backward` outside training mode. -/
inductive Err where
  | shape
  | attr
  | mode
deriving Repr, DecidableEq

/-- Modelled from the spec: `sigmoid` from the external `neural_networks`
module, `σ(x) = 1/(1+e^-x)`, with `e^y` supplied as the parameter `exp`
applied to `y`. -/
def sigmoidQ (exp : ℚ → ℚ) (x : ℚ) : ℚ := 1 / (1 + exp (-x))

/-- Source `tanh` in `deep_learning.py`: clamps to `-1` for
`x < -100` and to `1` for `x > 100` (never calling `exp` there, which is
how the source avoids `math.exp` overflow); otherwise
`(1 - e^{-2x}) / (1 + e^{-2x})`. -/
def tanhQ (exp : ℚ → ℚ) (x : ℚ) : ℚ :=
  if x < -100 then -1
  else if x > 100 then 1
  else (1 - exp (-2 * x)) / (1 + exp (-2 * x))

/-- Modelled from the spec: `dot` from the external `vector_operations`
module, the dot product of two equal-length vectors (the caller
`Linear.forward` is modelled as failing when the lengths differ). -/
def dotL (v w : List ℚ) : ℚ := (List.zipWith (· * ·) v w).sum

mutual
/-- The fresh 0/1 dropout mask drawn by `Dropout.forward` in training
mode: one uniform draw `rand (k+i)` per leaf, `0` when the draw is
`< p`, else `1`; returns the advanced draw counter and the mask. -/
def dropMask (p : ℚ) (rand : ℕ → ℚ) : Tensor → ℕ → ℕ × Tensor
  | .vec xs, k =>
      (k + xs.length, .vec ((List.range xs.length).map fun i => if rand (k + i) < p then 0 else 1))
  | .ten ts, k =>
      let r := dropMaskList p rand ts k
      (r.1, .ten r.2)
termination_by structural t => t

/-- Mask generation over a list of sub-tensors, threading the counter. -/
def dropMaskList (p : ℚ) (rand : ℕ → ℚ) : List Tensor → ℕ → ℕ × List Tensor
  | [], k => (k, [])
  | t :: ts, k =>
      let r := dropMask p rand t k
      let rs := dropMaskList p rand ts r.1
      (rs.1, r.2 :: rs.2)
termination_by structural ts => ts
end

/-- One layer of the network, together with its mutable state
(parameters and the values cached between `forward` and `backward`).
`linear` stores `input_dim`, `output_dim`, the weight rows `w`
(`w[o]` are the weights of the `o`-th neuron), the bias `b`, and the
caches `self.input`, `self.w_grad`, `self.b_grad`; `dropout` stores the
drop probability `p`, the `train` flag and the cached `self.mask`;
the activation layers store their cached tensor; `seq` is
`Sequential` over its sub-layers. -/
inductive Layer where
  | sigmoid (cache : Option Tensor)
  | tanhL (cache : Option Tensor)
  | relu (cache : Option Tensor)
  | linear (inputDim outputDim : ℕ) (w : List (List ℚ)) (b : List ℚ)
      (input : Option (List ℚ)) (wGrad : Option (List (List ℚ))) (bGrad : Option (List ℚ))
  | dropout (p : ℚ) (train : Bool) (mask : Option Tensor)
  | seq (layers : List Layer)

/-- Source `Dropout.__init__` (lines 515-517): stores `p` unchanged and
sets `self.train = True`; it performs no validation of `p` whatsoever. -/
def dropoutInit (p : ℚ) : Layer := .dropout p true none

mutual
/-- Source `forward` methods: the `forward` of each layer.  Takes the
modelled `math.exp` and the `random.random()` stream with its counter
`k`; returns the advanced counter, the layer with its updated cache, and
the output tensor. -/
def forward (exp : ℚ → ℚ) (rand : ℕ → ℚ) : Layer → ℕ → Tensor → Except Err (ℕ × Layer × Tensor)
  | .sigmoid _, k, input =>
      let out := tensor_apply (sigmoidQ exp) input
      .ok (k, .sigmoid (some out), out)
  | .tanhL _, k, input =>
      let out := tensor_apply (tanhQ exp) input
      .ok (k, .tanhL (some out), out)
  | .relu _, k, input =>
      .ok (k, .relu (some input), tensor_apply (fun x => max x 0) input)
  | .linear n m w b _ wg bg, k, input =>
      match input with
      | .vec x =>
          if m ≤ w.length ∧ m ≤ b.length ∧ ∀ r ∈ w.take m, r.length = x.length then
            .ok (k, .linear n m w b (some x) wg bg,
                 .vec ((List.range m).map fun o => dotL x (w.getD o []) + b.getD o 0))
          else .error .shape
      | _ => .error .shape
  | .dropout p train mask, k, input =>
      if train then
        let r := dropMask p rand input k
        match tensor_combine (· * ·) input r.2 with
        | some out => .ok (r.1, .dropout p true (some r.2), out)
        | none => .error .shape
      else
        .ok (k, .dropout p false mask, tensor_apply (fun x => x * (1 - p)) input)
  | .seq ls, k, input =>
      match forwardList exp rand ls k input with
      | .ok r => .ok (r.1, .seq r.2.1, r.2.2)
      | .error e => .error e
termination_by structural l => l

/-- Source `Sequential.forward`, its loop: threads the input through the
sub-layers in declaration order, each output becoming the next input. -/
def forwardList (exp : ℚ → ℚ) (rand : ℕ → ℚ) :
    List Layer → ℕ → Tensor → Except Err (ℕ × List Layer × Tensor)
  | [], k, input => .ok (k, [], input)
  | l :: ls, k, input => do
      let r ← forward exp rand l k input
      let rs ← forwardList exp rand ls r.1 r.2.2
      .ok (rs.1, r.2.1 :: rs.2.1, rs.2.2)
termination_by structural ls => ls
end

mutual
/-- Source `backward` methods: the `backward` of each layer; consumes
the output gradient, returns the layer with updated gradient caches and
the gradient with respect to the layer's input. -/
def backward : Layer → Tensor → Except Err (Layer × Tensor)
  | .sigmoid c, g =>
      match c with
      | some s =>
          match tensor_combine (fun sig grad => sig * (1 - sig) * grad) s g with
          | some r => .ok (.sigmoid (some s), r)
          | none => .error .shape
      | none => .error .attr
  | .tanhL c, g =>
      match c with
      | some t =>
          match tensor_combine (fun th grad => (1 - th ^ 2) * grad) t g with
          | some r => .ok (.tanhL (some t), r)
          | none => .error .shape
      | none => .error .attr
  | .relu c, g =>
      match c with
      | some inp =>
          match tensor_combine (fun x grad => if x > 0 then grad else 0) inp g with
          | some r => .ok (.relu (some inp), r)
          | none => .error .shape
      | none => .error .attr
  | .linear n m w b inp _ _, g0 =>
      match inp, g0 with
      | some x, .vec g =>
          if m ≤ w.length ∧ (∀ r ∈ w.take m, n ≤ r.length) ∧ n ≤ x.length ∧ m ≤ g.length then
            .ok (.linear n m w b (some x)
                   (some ((List.range m).map fun o => (List.range n).map fun i =>
                      x.getD i 0 * g.getD o 0))
                   (some g),
                 .vec ((List.range n).map fun i =>
                   ((List.range m).map fun o => (w.getD o []).getD i 0 * g.getD o 0).sum))
          else .error .shape
      | some _, _ => .error .shape
      | none, _ => .error .attr
  | .dropout p train mask, g =>
      if train then
        match mask with
        | some m =>
            match tensor_combine (· * ·) g m with
            | some r => .ok (.dropout p true (some m), r)
            | none => .error .shape
        | none => .error .attr
      else .error .mode
  | .seq ls, g =>
      match backwardList ls g with
      | .ok r => .ok (.seq r.1, r.2)
      | .error e => .error e
termination_by structural l => l

/-- Source `Sequential.backward`, its loop (`for layer in reversed(self.layers)`):
the gradient passes through the sub-layers in reverse declaration
order; the returned list keeps declaration order. -/
def backwardList : List Layer → Tensor → Except Err (List Layer × Tensor)
  | [], g => .ok ([], g)
  | l :: ls, g => do
      let rs ← backwardList ls g
      let r ← backward l rs.2
      .ok (r.1 :: rs.1, r.2)
termination_by structural ls => ls
end

mutual
/-- Source `params` methods: `[w, b]` for
`Linear`, the concatenation over sub-layers for `Sequential`, `()` for
every other layer (the base-class default). -/
def params : Layer → List Tensor
  | .linear _ _ w b _ _ _ => [.ten (w.map .vec), .vec b]
  | .seq ls => paramsList ls
  | _ => []
termination_by structural l => l

/-- Parameter sequence of a list of sub-layers, flattened in order. -/
def paramsList : List Layer → List Tensor
  | [] => []
  | l :: ls => params l ++ paramsList ls
termination_by structural ls => ls
end

mutual
/-- Source `grads` methods: `[w_grad, b_grad]` for `Linear` (raising
`AttributeError`, modelled as `none`, when `backward` has not run), the
concatenation over sub-layers for `Sequential`, `()` otherwise. -/
def grads : Layer → Option (List Tensor)
  | .linear _ _ _ _ _ wg bg => do
      let wgv ← wg
      let bgv ← bg
      pure [.ten (wgv.map .vec), .vec bgv]
  | .seq ls => gradsList ls
  | _ => some []
termination_by structural l => l

/-- Gradient sequence of a list of sub-layers, flattened in order. -/
def gradsList : List Layer → Option (List Tensor)
  | [] => some []
  | l :: ls => do
      let gs ← grads l
      let rest ← gradsList ls
      pure (gs ++ rest)
termination_by structural ls => ls
end

/-- The loop body of `Momentum.step` (source lines 314-327): for each
(velocity, parameter, gradient) triple in positional order — Python's
`zip` stops at the shortest list, leaving later entries untouched —
the velocity becomes `mo*u + (1-mo)*g` and the parameter then becomes
`p - lr*u'` using the *new* velocity.  Returns the new velocity and
parameter lists. -/
def momentumLoop (mo lr : ℚ) :
    List Tensor → List Tensor → List Tensor → Option (List Tensor × List Tensor)
  | u :: us, p :: ps, g :: gs => do
      let u' ← tensor_combine (fun u g => mo * u + (1 - mo) * g) u g
      let p' ← tensor_combine (fun p u => p - lr * u) p u'
      let rest ← momentumLoop mo lr us ps gs
      pure (u' :: rest.1, p' :: rest.2)
  | us, ps, _ => some (us, ps)

/-- Source `Momentum.step` (lines 309-327): on the first call
(`self.updates` empty) the velocities are lazily allocated as
`zero_like` of each gradient, then the loop runs.  In-place mutation of
`self.updates` and of the layer's parameter tensors is modelled by
returning the new velocity list and the new parameter list. -/
def momentumStep (mo lr : ℚ) (updates ps gs : List Tensor) :
    Option (List Tensor × List Tensor) :=
  momentumLoop mo lr (if updates.isEmpty then gs.map zero_like else updates) ps gs

/-- Source `softmax` (lines 449-457): defined only on rank-1 tensors
(`if is_1d(tensor)` has no `else` branch, so Python returns `None` on
any higher-rank tensor, modelled as `none`); subtracts the largest
element, exponentiates, and normalises by the sum of the exponentials. -/
def softmax (exp : ℚ → ℚ) : Tensor → Option Tensor
  | .vec (x :: xs) =>
      let largest := List.foldl max x xs
      let exps := (x :: xs).map fun y => exp (y - largest)
      some (.vec (exps.map fun e => e / exps.sum))
  | _ => none

/-- The literal `1e-30` guarding `log(0)` in `SoftmaxCrossEntropy.loss`. -/
def sceEps : ℚ := 1 / 10 ^ 30

/-- Source `SoftmaxCrossEntropy.loss` (lines 466-475): softmax the
prediction, combine with the target by `log(p + 1e-30) * actual`,
sum, and negate. -/
def sceLoss (exp log : ℚ → ℚ) (predicted actual : Tensor) : Option ℚ := do
  let probs ← softmax exp predicted
  let likelihoods ← tensor_combine (fun p act => log (p + sceEps) * act) probs actual
  pure (-(tensor_sum likelihoods))

/-- Source `SoftmaxCrossEntropy.gradient` (lines 477-481): softmax the
prediction and subtract the target element-wise. -/
def sceGradient (exp : ℚ → ℚ) (predicted actual : Tensor) : Option Tensor := do
  let probs ← softmax exp predicted
  tensor_combine (fun p a => p - a) probs actual

mutual
/-- Source `random_normal` (lines 137-145): one draw per leaf, each
leaf being `mean + variance * inverse_normal_cdf(random.random())`
(note: the source multiplies by `variance` itself, not by its square
root).  `rand` is the modelled `random.random()` stream, `k` the number
of draws consumed so far; an empty dimension list raises (`dims[0]` on
an empty tuple), modelled as `none`. -/
def random_normal (invCdf : ℚ → ℚ) (rand : ℕ → ℚ) (mean variance : ℚ) :
    List ℕ → ℕ → Option (ℕ × Tensor)
  | [], _ => none
  | [d], k =>
      some (k + d, .vec ((List.range d).map fun i => mean + variance * invCdf (rand (k + i))))
  | d :: d' :: rest, k =>
      (random_normalList invCdf rand mean variance (d' :: rest) d k).map
        fun r => (r.1, .ten r.2)
termination_by dims _ => (dims.length, 0)

/-- Source `random_normal`, its recursive comprehension
(`[random_normal(*dims[1:], ...) for _ in range(dims[0])]`),
threading the draw counter left to right. -/
def random_normalList (invCdf : ℚ → ℚ) (rand : ℕ → ℚ) (mean variance : ℚ)
    (dims : List ℕ) : ℕ → ℕ → Option (ℕ × List Tensor)
  | 0, k => some (k, [])
  | n + 1, k => do
      let r ← random_normal invCdf rand mean variance dims k
      let rs ← random_normalList invCdf rand mean variance dims n r.1
      pure (rs.1, r.2 :: rs.2)
termination_by n _ => (dims.length, n + 1)
end

mutual
/-- Source `random_uniform` (lines 131-135): one `random.random()` draw
per leaf. -/
def random_uniform (rand : ℕ → ℚ) : List ℕ → ℕ → Option (ℕ × Tensor)
  | [], _ => none
  | [d], k => some (k + d, .vec ((List.range d).map fun i => rand (k + i)))
  | d :: d' :: rest, k =>
      (random_uniformList rand (d' :: rest) d k).map fun r => (r.1, .ten r.2)
termination_by dims _ => (dims.length, 0)

/-- Source `random_uniform`, its recursive comprehension, threading the counter. -/
def random_uniformList (rand : ℕ → ℚ) (dims : List ℕ) : ℕ → ℕ → Option (ℕ × List Tensor)
  | 0, k => some (k, [])
  | n + 1, k => do
      let r ← random_uniform rand dims k
      let rs ← random_uniformList rand dims n r.1
      pure (rs.1, r.2 :: rs.2)
termination_by n _ => (dims.length, n + 1)
end

/-- Source `random_tensor` (lines 150-159): selects the initializer by
name; `"xavier"` computes `variance = len(dims) / sum(dims)` and
delegates to `random_normal` (with the default `mean = 0`); an
unrecognized name raises `ValueError`, modelled as `none`. -/
def random_tensor (invCdf : ℚ → ℚ) (rand : ℕ → ℚ) (dims : List ℕ) (initName : String)
    (k : ℕ) : Option (ℕ × Tensor) :=
  if initName = "normal" then random_normal invCdf rand 0 1 dims k
  else if initName = "uniform" then random_uniform rand dims k
  else if initName = "xavier" then
    random_normal invCdf rand 0 ((dims.length : ℚ) / ((dims.sum : ℕ) : ℚ)) dims k
  else none

/-! ### Shape lemmas -/

mutual
/-- When the two tensors have the same shape, `tensor_combine` succeeds
and computes the total element-wise combination. -/
theorem tensor_combine_eq_of_sameShape (f : ℚ → ℚ → ℚ) :
    ∀ t u : Tensor, sameShape t u = true → tensor_combine f t u = some (combineTotal f t u)
  | .vec xs, .vec ys, _ => by simp [tensor_combine, combineTotal]
  | .ten ts, .ten us, h => by
      simp only [sameShape] at h
      simp [tensor_combine, combineTotal, tensor_combineList_eq_of_sameShape f ts us h]
  | .vec _, .ten _, h => by simp [sameShape] at h
  | .ten _, .vec _, h => by simp [sameShape] at h

/-- List version of `tensor_combine_eq_of_sameShape`. -/
theorem tensor_combineList_eq_of_sameShape (f : ℚ → ℚ → ℚ) :
    ∀ ts us : List Tensor, sameShapeList ts us = true →
      tensor_combineList f ts us = some (combineTotalList f ts us)
  | [], [], _ => by simp [tensor_combineList, combineTotalList]
  | t :: ts, u :: us, h => by
      simp only [sameShapeList, Bool.and_eq_true] at h
      simp [tensor_combineList, combineTotalList,
        tensor_combine_eq_of_sameShape f t u h.1,
        tensor_combineList_eq_of_sameShape f ts us h.2]
  | [], _ :: _, h => by simp [sameShapeList] at h
  | _ :: _, [], h => by simp [sameShapeList] at h
end

mutual
/-- Lemma: `tensor_apply` preserves the shape of its argument. -/
theorem sameShape_tensor_apply (f : ℚ → ℚ) :
    ∀ t : Tensor, sameShape (tensor_apply f t) t = true
  | .vec xs => by simp [tensor_apply, sameShape]
  | .ten ts => by simp [tensor_apply, sameShape, sameShapeList_tensor_applyList f ts]

/-- List version of `sameShape_tensor_apply`. -/
theorem sameShapeList_tensor_applyList (f : ℚ → ℚ) :
    ∀ ts : List Tensor, sameShapeList (tensor_applyList f ts) ts = true
  | [] => by simp [tensor_applyList, sameShapeList]
  | t :: ts => by
      simp [tensor_applyList, sameShapeList, sameShape_tensor_apply f t,
        sameShapeList_tensor_applyList f ts]
end

mutual
/-- When `t` and `u` share a shape, so do `combineTotal f t u` and `u`. -/
theorem sameShape_combineTotal (f : ℚ → ℚ → ℚ) :
    ∀ t u : Tensor, sameShape t u = true → sameShape (combineTotal f t u) u = true
  | .vec xs, .vec ys, h => by
      simp only [sameShape, beq_iff_eq] at h
      simp [combineTotal, sameShape, h]
  | .ten ts, .ten us, h => by
      simp only [sameShape] at h
      simp [combineTotal, sameShape, sameShapeList_combineTotalList f ts us h]
  | .vec _, .ten _, h => by simp [sameShape] at h
  | .ten _, .vec _, h => by simp [sameShape] at h

/-- List version of `sameShape_combineTotal`. -/
theorem sameShapeList_combineTotalList (f : ℚ → ℚ → ℚ) :
    ∀ ts us : List Tensor, sameShapeList ts us = true →
      sameShapeList (combineTotalList f ts us) us = true
  | [], [], _ => by simp [combineTotalList, sameShapeList]
  | t :: ts, u :: us, h => by
      simp only [sameShapeList, Bool.and_eq_true] at h
      simp [combineTotalList, sameShapeList, sameShape_combineTotal f t u h.1,
        sameShapeList_combineTotalList f ts us h.2]
  | [], _ :: _, h => by simp [sameShapeList] at h
  | _ :: _, [], h => by simp [sameShapeList] at h
end

mutual
/-- Lemma: `sameShape` is symmetric. -/
theorem sameShape_symm :
    ∀ t u : Tensor, sameShape t u = true → sameShape u t = true
  | .vec xs, .vec ys, h => by
      simp only [sameShape, beq_iff_eq] at h ⊢; omega
  | .ten ts, .ten us, h => by
      simp only [sameShape] at h ⊢; exact sameShapeList_symm ts us h
  | .vec _, .ten _, h => by simp [sameShape] at h
  | .ten _, .vec _, h => by simp [sameShape] at h

/-- List version of `sameShape_symm`. -/
theorem sameShapeList_symm :
    ∀ ts us : List Tensor, sameShapeList ts us = true → sameShapeList us ts = true
  | [], [], _ => by simp [sameShapeList]
  | t :: ts, u :: us, h => by
      simp only [sameShapeList, Bool.and_eq_true] at h ⊢
      exact ⟨sameShape_symm t u h.1, sameShapeList_symm ts us h.2⟩
  | [], _ :: _, h => by simp [sameShapeList] at h
  | _ :: _, [], h => by simp [sameShapeList] at h
end

mutual
/-- Lemma: `sameShape` is transitive. -/
theorem sameShape_trans :
    ∀ t u v : Tensor, sameShape t u = true → sameShape u v = true → sameShape t v = true
  | .vec _, .vec _, .vec _, h1, h2 => by
      simp only [sameShape, beq_iff_eq] at h1 h2 ⊢; omega
  | .ten ts, .ten us, .ten vs, h1, h2 => by
      simp only [sameShape] at h1 h2 ⊢
      exact sameShapeList_trans ts us vs h1 h2
  | .vec _, .ten _, _, h1, _ => by simp [sameShape] at h1
  | .ten _, .vec _, _, h1, _ => by simp [sameShape] at h1
  | .vec _, .vec _, .ten _, _, h2 => by simp [sameShape] at h2
  | .ten _, .ten _, .vec _, _, h2 => by simp [sameShape] at h2

/-- List version of `sameShape_trans`. -/
theorem sameShapeList_trans :
    ∀ ts us vs : List Tensor, sameShapeList ts us = true → sameShapeList us vs = true →
      sameShapeList ts vs = true
  | [], [], [], _, _ => by simp [sameShapeList]
  | t :: ts, u :: us, v :: vs, h1, h2 => by
      simp only [sameShapeList, Bool.and_eq_true] at h1 h2 ⊢
      exact ⟨sameShape_trans t u v h1.1 h2.1, sameShapeList_trans ts us vs h1.2 h2.2⟩
  | [], _ :: _, _, h1, _ => by simp [sameShapeList] at h1
  | _ :: _, [], _, h1, _ => by simp [sameShapeList] at h1
  | [], [], _ :: _, _, h2 => by simp [sameShapeList] at h2
  | _ :: _, _ :: _, [], _, h2 => by simp [sameShapeList] at h2
end

mutual
/-- The leaves of `tensor_apply f t` are the leaves of `t`, mapped. -/
theorem tensorLeaves_tensor_apply (f : ℚ → ℚ) :
    ∀ t : Tensor, tensorLeaves (tensor_apply f t) = (tensorLeaves t).map f
  | .vec xs => by simp [tensor_apply, tensorLeaves]
  | .ten ts => by simp [tensor_apply, tensorLeaves, tensorLeavesList_tensor_applyList f ts]

/-- List version of `tensorLeaves_tensor_apply`. -/
theorem tensorLeavesList_tensor_applyList (f : ℚ → ℚ) :
    ∀ ts : List Tensor, tensorLeavesList (tensor_applyList f ts) = (tensorLeavesList ts).map f
  | [] => by simp [tensor_applyList, tensorLeavesList]
  | t :: ts => by
      simp [tensor_applyList, tensorLeavesList, tensorLeaves_tensor_apply f t,
        tensorLeavesList_tensor_applyList f ts]
end

/-- Lemma: `zero_like` yields a tensor of the same shape whose leaves are all 0. -/
theorem zero_like_spec (t : Tensor) :
    sameShape (zero_like t) t = true ∧ ∀ x ∈ tensorLeaves (zero_like t), x = 0 := by
  refine ⟨sameShape_tensor_apply _ t, ?_⟩
  intro x hx
  rw [zero_like, tensorLeaves_tensor_apply] at hx
  simp only [List.mem_map] at hx
  obtain ⟨y, -, rfl⟩ := hx
  rfl

/-! ### Claims -/

/-- C6 counterexample: `tensor_combine` applied to two rank-1 tensors of
different lengths (3 and 2) does *not* fail: it succeeds and silently
truncates to the shorter operand, returning a length-2 tensor. -/
theorem C6_counterexample :
    tensor_combine (· + ·) (Tensor.vec [1, 2, 3]) (Tensor.vec [4, 5]) = some (.vec [5, 7]) := by
  norm_num [tensor_combine]

/-- C6 (amended): `tensor_combine` performs no shape check on rank-1
tensors: it zips the two operands, silently truncating to the shorter
one (the result has length `min |t1| |t2|`), and raises no error. -/
theorem C6_tensor_combine_truncates (f : ℚ → ℚ → ℚ) (xs ys : List ℚ) :
    tensor_combine f (.vec xs) (.vec ys) = some (.vec (List.zipWith f xs ys)) ∧
    (List.zipWith f xs ys).length = min xs.length ys.length := by
  exact ⟨by simp [tensor_combine], by simp⟩

/-- C10: `softmax` yields a value only on rank-1 tensors — on any tensor
whose first element is itself a list it returns `None` — so
`SoftmaxCrossEntropy.loss` and `.gradient` fail on higher-rank input. -/
theorem C10_softmax_rank1_only (exp log : ℚ → ℚ) (ts : List Tensor) (actual : Tensor) :
    softmax exp (.ten ts) = none ∧
    sceLoss exp log (.ten ts) actual = none ∧
    sceGradient exp (.ten ts) actual = none := by
  refine ⟨?_, ?_, ?_⟩ <;> simp [softmax, sceLoss, sceGradient]

/-- C9: for `x > 100` the `tanh` function returns exactly `1`, and for
`x < -100` exactly `-1` — in both cases without consulting `exp` at all,
which is how the source avoids the `math.exp` overflow; the `Tanh` layer
caches the element-wise `tanh` output on `forward`, and `backward`
returns `(1 - tanh²) * gradient` element-wise from the cached output. -/
theorem C9_tanh_clamp_and_layer (exp : ℚ → ℚ) (rand : ℕ → ℚ) (x : ℚ) (k : ℕ)
    (c : Option Tensor) (t cache g : Tensor) :
    (x > 100 → tanhQ exp x = 1) ∧
    (x < -100 → tanhQ exp x = -1) ∧
    (forward exp rand (.tanhL c) k t =
      .ok (k, .tanhL (some (tensor_apply (tanhQ exp) t)), tensor_apply (tanhQ exp) t)) ∧
    (sameShape cache g = true →
      backward (.tanhL (some cache)) g =
        .ok (.tanhL (some cache), combineTotal (fun th grad => (1 - th ^ 2) * grad) cache g)) := by
  refine ⟨?_, ?_, ?_, ?_⟩
  · intro h
    rw [tanhQ, if_neg (by linarith), if_pos h]
  · intro h
    rw [tanhQ, if_pos h]
  · simp [forward]
  · intro h
    simp [backward, tensor_combine_eq_of_sameShape _ _ _ h]

/-- Witness for C9: `Tanh.forward` on `[150, -150]` returns exactly
`[1, -1]`, and `backward` on a cached output `[1]` with gradient `[2]`
returns `[(1 - 1²) * 2] = [0]`. -/
theorem C9_witness :
    (150 : ℚ) > 100 ∧ tanhQ (fun _ => 0) 150 = 1 ∧
    (-150 : ℚ) < -100 ∧ tanhQ (fun _ => 0) (-150) = -1 ∧
    forward (fun _ => 0) (fun _ => 0) (.tanhL none) 0 (.vec [150, -150]) =
      .ok (0, .tanhL (some (.vec [1, -1])), .vec [1, -1]) ∧
    sameShape (Tensor.vec [1]) (.vec [2]) = true ∧
    backward (.tanhL (some (.vec [1]))) (.vec [2]) =
      .ok (.tanhL (some (.vec [1])), .vec [0]) := by
  have h150 := C9_tanh_clamp_and_layer (fun _ => 0) (fun _ => 0) 150 0 none
    (.vec [150, -150]) (.vec [1]) (.vec [2])
  have hneg := C9_tanh_clamp_and_layer (fun _ => 0) (fun _ => 0) (-150) 0 none
    (.vec [150, -150]) (.vec [1]) (.vec [2])
  refine ⟨by norm_num, h150.1 (by norm_num), by norm_num, hneg.2.1 (by norm_num), ?_, rfl, ?_⟩
  · rw [h150.2.2.1]
    norm_num [tensor_apply, tanhQ]
  · rw [h150.2.2.2 rfl]
    norm_num [combineTotal]

/-- C2: on a rank-1 prediction, `softmax` subtracts the maximum element,
exponentiates and normalises by the sum of exponentials (in particular
`softmax [1000, 1000, 1000] = [1/3, 1/3, 1/3]` exactly, for *any*
exponential with `exp 0 ≠ 0` — the max subtraction means `exp` is only
ever applied to `0` here, which is how the source avoids overflow);
`SoftmaxCrossEntropy.loss` returns the negative sum of
`actual * log(probability + 1e-30)` and `.gradient` returns
`softmax(predicted) - actual` element-wise. -/
theorem C2_softmax_cross_entropy (exp log : ℚ → ℚ) (y : ℚ) (ys as : List ℚ)
    (hexp : exp 0 ≠ 0) (hlen : as.length = ys.length + 1) :
    softmax exp (.vec (y :: ys)) =
      some (.vec ((y :: ys).map fun z =>
        exp (z - List.foldl max y ys) /
          ((y :: ys).map fun w => exp (w - List.foldl max y ys)).sum)) ∧
    sceLoss exp log (.vec (y :: ys)) (.vec as) =
      some (-(List.zipWith (fun p a => log (p + 1 / 10 ^ 30) * a)
        ((y :: ys).map fun z =>
          exp (z - List.foldl max y ys) /
            ((y :: ys).map fun w => exp (w - List.foldl max y ys)).sum) as).sum) ∧
    sceGradient exp (.vec (y :: ys)) (.vec as) =
      some (.vec (List.zipWith (fun p a => p - a)
        ((y :: ys).map fun z =>
          exp (z - List.foldl max y ys) /
            ((y :: ys).map fun w => exp (w - List.foldl max y ys)).sum) as)) ∧
    softmax exp (.vec [1000, 1000, 1000]) = some (.vec [1 / 3, 1 / 3, 1 / 3]) := by
  have hsm : softmax exp (.vec (y :: ys)) =
      some (.vec ((y :: ys).map fun z =>
        exp (z - List.foldl max y ys) /
          ((y :: ys).map fun w => exp (w - List.foldl max y ys)).sum)) := by
    simp [softmax, List.map_map, Function.comp]
  refine ⟨hsm, ?_, ?_, ?_⟩
  · simp [sceLoss, hsm, tensor_combine, tensor_sum, sceEps]
  · simp [sceGradient, hsm, tensor_combine]
  · have h3ne : (3 : ℚ) * exp 0 ≠ 0 := mul_ne_zero (by norm_num) hexp
    simp only [softmax, List.foldl, List.map, List.sum_cons, List.sum_nil]
    norm_num
    have h3' : exp 0 + (exp 0 + exp 0) = 3 * exp 0 := by ring
    rw [h3', div_eq_div_iff h3ne (by norm_num : (3 : ℚ) ≠ 0)]
    ring

/-- Witness for C2: with `exp = const 1` and `log = id`,
`softmax [5, 7] = [1/2, 1/2]`, the loss against the one-hot target
`[0, 1]` is `-(1/2 + 1e-30)`, the gradient is `[1/2, -1/2]`, and
`softmax [1000, 1000, 1000] = [1/3, 1/3, 1/3]`. -/
theorem C2_witness :
    (fun _ : ℚ => (1 : ℚ)) 0 ≠ 0 ∧ ([0, 1] : List ℚ).length = ([7] : List ℚ).length + 1 ∧
    softmax (fun _ => 1) (.vec [5, 7]) = some (.vec [1 / 2, 1 / 2]) ∧
    sceLoss (fun _ => 1) (fun z => z) (.vec [5, 7]) (.vec [0, 1]) =
      some (-(1 / 2 + 1 / 10 ^ 30)) ∧
    sceGradient (fun _ => 1) (.vec [5, 7]) (.vec [0, 1]) = some (.vec [1 / 2, -(1 / 2)]) ∧
    softmax (fun _ => 1) (.vec [1000, 1000, 1000]) = some (.vec [1 / 3, 1 / 3, 1 / 3]) := by
  have h := C2_softmax_cross_entropy (fun _ => 1) (fun z => z) 5 [7] [0, 1]
    (by norm_num) (by norm_num)
  refine ⟨by norm_num, by norm_num, ?_, ?_, ?_, h.2.2.2⟩
  · rw [h.1]; norm_num
  · rw [h.2.1]; norm_num
  · rw [h.2.2.1]; norm_num

mutual
/-- The dropout mask has the same shape as the input it was drawn for. -/
theorem dropMask_sameShape (p : ℚ) (rand : ℕ → ℚ) :
    ∀ (t : Tensor) (k : ℕ), sameShape (dropMask p rand t k).2 t = true
  | .vec xs, k => by simp [dropMask, sameShape]
  | .ten ts, k => by simp [dropMask, sameShape, dropMaskList_sameShape p rand ts k]

/-- List version of `dropMask_sameShape`. -/
theorem dropMaskList_sameShape (p : ℚ) (rand : ℕ → ℚ) :
    ∀ (ts : List Tensor) (k : ℕ), sameShapeList (dropMaskList p rand ts k).2 ts = true
  | [], k => by simp [dropMaskList, sameShapeList]
  | t :: ts, k => by
      simp [dropMaskList, sameShapeList, dropMask_sameShape p rand t k,
        dropMaskList_sameShape p rand ts (dropMask p rand t k).1]
end

mutual
/-- Every leaf of a dropout mask is 0 or 1. -/
theorem dropMask_leaves01 (p : ℚ) (rand : ℕ → ℚ) :
    ∀ (t : Tensor) (k : ℕ), ∀ z ∈ tensorLeaves (dropMask p rand t k).2, z = 0 ∨ z = 1
  | .vec xs, k => by
      simp only [dropMask, tensorLeaves, List.mem_map]
      rintro z ⟨i, -, rfl⟩
      by_cases h : rand (k + i) < p <;> simp [h]
  | .ten ts, k => by
      simpa [dropMask, tensorLeaves] using dropMaskList_leaves01 p rand ts k

/-- List version of `dropMask_leaves01`. -/
theorem dropMaskList_leaves01 (p : ℚ) (rand : ℕ → ℚ) :
    ∀ (ts : List Tensor) (k : ℕ), ∀ z ∈ tensorLeavesList (dropMaskList p rand ts k).2, z = 0 ∨ z = 1
  | [], k => by simp [dropMaskList, tensorLeavesList]
  | t :: ts, k => by
      simp only [dropMaskList, tensorLeavesList, List.mem_append]
      rintro z (hz | hz)
      · exact dropMask_leaves01 p rand t k z hz
      · exact dropMaskList_leaves01 p rand ts (dropMask p rand t k).1 z hz
end

/-- C7: `Dropout.backward` raises the misuse `RuntimeError` exactly when
the layer is in evaluation mode: in evaluation mode it always signals
`Err.mode`, while in training mode it never does (any training-mode
failure is a different error).  In training mode with a cached mask of
matching shape it returns the element-wise product of the gradient and
the mask; and any successful training-mode `forward` caches a mask of
0/1 values shaped like the input, after which `backward` on a gradient
of that shape returns exactly `gradient * mask`. -/
theorem C7_dropout_backward (p : ℚ) (exp : ℚ → ℚ) (rand : ℕ → ℚ) (k : ℕ)
    (c : Option Tensor) (input g m : Tensor) :
    (backward (.dropout p false c) g = .error .mode) ∧
    (∀ c' e, backward (.dropout p true c') g = .error e → e ≠ .mode) ∧
    (sameShape g m = true →
      backward (.dropout p true (some m)) g =
        .ok (.dropout p true (some m), combineTotal (· * ·) g m)) ∧
    (∀ k' l' out, forward exp rand (.dropout p true c) k input = .ok (k', l', out) →
      ∃ mk, l' = .dropout p true (some mk) ∧ sameShape mk input = true ∧
        (∀ z ∈ tensorLeaves mk, z = 0 ∨ z = 1) ∧
        (sameShape g input = true →
          backward l' g = .ok (l', combineTotal (· * ·) g mk))) := by
  refine ⟨by simp [backward], ?_, ?_, ?_⟩
  · intro c' e he
    match c' with
    | none => simp [backward] at he; simp [← he]
    | some m' =>
        simp only [backward, if_pos] at he
        rcases hc : tensor_combine (· * ·) g m' with _ | r <;> rw [hc] at he <;>
          simp at he <;> simp [← he]
  · intro h
    simp [backward, tensor_combine_eq_of_sameShape _ _ _ h]
  · intro k' l' out hf
    simp only [forward, if_pos] at hf
    rcases hc : tensor_combine (· * ·) input (dropMask p rand input k).2 with _ | r <;>
      rw [hc] at hf
    · simp at hf
    · simp only [Except.ok.injEq, Prod.mk.injEq] at hf
      obtain ⟨-, hl, -⟩ := hf
      refine ⟨(dropMask p rand input k).2, hl.symm, dropMask_sameShape p rand input k,
        dropMask_leaves01 p rand input k, ?_⟩
      intro hgi
      have hgm : sameShape g (dropMask p rand input k).2 = true :=
        sameShape_trans _ _ _ hgi (sameShape_symm _ _ (dropMask_sameShape p rand input k))
      rw [← hl]
      simp [backward, tensor_combine_eq_of_sameShape _ _ _ hgm]

/-- Witness for C7: with drop probability `1/2` and cached mask `[0, 1]`,
evaluation-mode `backward` signals the misuse error and training-mode
`backward` on gradient `[10, 20]` returns `[0, 20]`. -/
theorem C7_witness :
    sameShape (Tensor.vec [10, 20]) (.vec [0, 1]) = true ∧
    backward (.dropout (1 / 2) false none) (.vec [10, 20]) = .error .mode ∧
    backward (.dropout (1 / 2) true (some (.vec [0, 1]))) (.vec [10, 20]) =
      .ok (.dropout (1 / 2) true (some (.vec [0, 1])), .vec [0, 20]) := by
  have h := C7_dropout_backward (1 / 2) (fun _ => 0) (fun _ => 0) 0 none
    (.vec [5, 6]) (.vec [10, 20]) (.vec [0, 1])
  refine ⟨rfl, h.1, ?_⟩
  rw [h.2.2.1 rfl]
  norm_num [combineTotal]

/-- C8 counterexample: constructing `Dropout` with the out-of-range drop
probability `p = -1` does *not* fail: the constructor returns a normal
layer (train mode on, no mask), and that layer's `forward` then runs
without error. -/
theorem C8_counterexample :
    dropoutInit (-1) = .dropout (-1) true none ∧
    forward (fun _ => 0) (fun _ => 0) (dropoutInit (-1)) 0 (.vec [1]) =
      .ok (1, .dropout (-1) true (some (.vec [1])), .vec [1]) := by
  refine ⟨rfl, ?_⟩
  norm_num [dropoutInit, forward, dropMask, tensor_combine]

/-- Multiplying element-wise by an all-ones vector of matching length is
the identity. -/
theorem zipWith_mul_replicate_one :
    ∀ xs : List ℚ, List.zipWith (· * ·) xs (List.replicate xs.length 1) = xs
  | [] => rfl
  | x :: xs => by simp [List.replicate_succ, zipWith_mul_replicate_one xs]

/-- C8 (amended): `Dropout.__init__` performs no validation: every drop
probability `p`, negative ones included, is stored unchanged with the
train flag set; with `p < 0` the layer is fully functional — since the
uniform draws are never below a negative `p`, the mask is all ones and
training-mode `forward` returns the input unchanged. -/
theorem C8_dropout_accepts_any_p (exp : ℚ → ℚ) (rand : ℕ → ℚ) (p : ℚ) :
    dropoutInit p = .dropout p true none ∧
    (p < 0 → (∀ i, 0 ≤ rand i) → ∀ (k : ℕ) (xs : List ℚ),
      ∃ mk, forward exp rand (dropoutInit p) k (.vec xs) =
        .ok (k + xs.length, .dropout p true (some mk), .vec xs) ∧
        ∀ z ∈ tensorLeaves mk, z = 1) := by
  refine ⟨rfl, ?_⟩
  intro hp hr k xs
  have hmask : ((List.range xs.length).map fun i => if rand (k + i) < p then (0 : ℚ) else 1)
      = List.replicate xs.length (1 : ℚ) := by
    refine List.eq_replicate_iff.2 ⟨by simp, ?_⟩
    intro b hb
    simp only [List.mem_map] at hb
    obtain ⟨i, -, rfl⟩ := hb
    rw [if_neg (not_lt.2 (le_of_lt (lt_of_lt_of_le hp (hr (k + i)))))]
  refine ⟨.vec (List.replicate xs.length 1), ?_, ?_⟩
  · simp [dropoutInit, forward, dropMask, hmask, tensor_combine, zipWith_mul_replicate_one]
  · intro z hz
    simp only [tensorLeaves] at hz
    exact List.eq_of_mem_replicate hz

/-- Witness for C8 (amended): `Dropout(-1)` in training mode forwards
`[5]` unchanged with an all-ones mask. -/
theorem C8_witness :
    (-1 : ℚ) < 0 ∧ (∀ i : ℕ, (0 : ℚ) ≤ (fun _ : ℕ => (0 : ℚ)) i) ∧
    (∃ mk, forward (fun _ => 0) (fun _ : ℕ => (0 : ℚ)) (dropoutInit (-1)) 0 (.vec [5]) =
      .ok (0 + ([5] : List ℚ).length, .dropout (-1) true (some mk), .vec [5]) ∧
      ∀ z ∈ tensorLeaves mk, z = 1) := by
  refine ⟨by norm_num, fun i => le_refl 0, ?_⟩
  exact (C8_dropout_accepts_any_p (fun _ => 0) (fun _ => 0) (-1)).2 (by norm_num)
    (fun i => le_refl 0) 0 [5]

/-- Bind on a successful `Except` computation reduces to the
continuation. -/
theorem except_bind_ok {ε α β : Type} (a : α) (f : α → Except ε β) :
    (Except.ok a >>= f) = f a := rfl

/-- Bind on a failed `Except` computation propagates the error. -/
theorem except_bind_error {ε α β : Type} (e : ε) (f : α → Except ε β) :
    ((Except.error e : Except ε α) >>= f) = Except.error e := rfl

/-- Forward-threading decomposes over concatenation of layer lists: the
input goes through the first block, and its output through the second. -/
theorem forwardList_append (exp : ℚ → ℚ) (rand : ℕ → ℚ) (ls₁ ls₂ : List Layer) :
    ∀ (k : ℕ) (x : Tensor),
      forwardList exp rand (ls₁ ++ ls₂) k x =
        forwardList exp rand ls₁ k x >>= fun r =>
          forwardList exp rand ls₂ r.1 r.2.2 >>= fun s => .ok (s.1, r.2.1 ++ s.2.1, s.2.2) := by
  induction ls₁ with
  | nil =>
      intro k x
      cases h : forwardList exp rand ls₂ k x <;>
        simp [forwardList, h, except_bind_ok, except_bind_error]
  | cons l ls ih =>
      intro k x
      simp only [List.cons_append, forwardList]
      cases hf : forward exp rand l k x with
      | error e => simp [except_bind_error]
      | ok r =>
          simp only [except_bind_ok, List.append_eq, ih]
          cases h1 : forwardList exp rand ls r.1 r.2.2 with
          | error e => simp [except_bind_error]
          | ok s =>
              simp only [except_bind_ok]
              cases h2 : forwardList exp rand ls₂ s.1 s.2.2 <;>
                simp [except_bind_ok, except_bind_error]

/-- Backward-threading decomposes over concatenation in *reverse*: the
gradient goes through the second block first, then through the first. -/
theorem backwardList_append (ls₁ ls₂ : List Layer) :
    ∀ g : Tensor,
      backwardList (ls₁ ++ ls₂) g =
        backwardList ls₂ g >>= fun r =>
          backwardList ls₁ r.2 >>= fun s => .ok (s.1 ++ r.1, s.2) := by
  induction ls₁ with
  | nil =>
      intro g
      cases h : backwardList ls₂ g <;>
        simp [backwardList, h, except_bind_ok, except_bind_error]
  | cons l ls ih =>
      intro g
      simp only [List.cons_append, backwardList, List.append_eq, ih]
      cases h2 : backwardList ls₂ g with
      | error e => simp [except_bind_error]
      | ok r =>
          simp only [except_bind_ok]
          cases h1 : backwardList ls r.2 with
          | error e => simp [except_bind_error]
          | ok s =>
              simp only [except_bind_ok]
              cases hb : backward l s.2 <;> simp [except_bind_ok, except_bind_error]

/-- Parameter sequences concatenate over layer-list concatenation. -/
theorem paramsList_append (ls₁ ls₂ : List Layer) :
    paramsList (ls₁ ++ ls₂) = paramsList ls₁ ++ paramsList ls₂ := by
  induction ls₁ with
  | nil => simp [paramsList]
  | cons l ls ih => simp [paramsList, ih]

/-- Gradient sequences concatenate over layer-list concatenation. -/
theorem gradsList_append (ls₁ ls₂ : List Layer) :
    gradsList (ls₁ ++ ls₂) = gradsList ls₁ >>= fun a => (gradsList ls₂).map fun c => a ++ c := by
  induction ls₁ with
  | nil =>
      cases h : gradsList ls₂ <;> simp [gradsList, h]
  | cons l ls ih =>
      simp only [List.cons_append, gradsList, List.append_eq, ih]
      cases hg : grads l with
      | none => rfl
      | some gs =>
          cases h1 : gradsList ls with
          | none => simp
          | some a =>
              cases h2 : gradsList ls₂ <;> simp

/-- C4: `Sequential.forward` threads the input through the sub-layers in
declaration order (the forward pass over `ls₁ ++ ls₂` runs `ls₁` on the
input and `ls₂` on its output), `Sequential.backward` threads the
gradient in reverse declaration order (`ls₂` first, then `ls₁`), and
`params`/`grads` are the order-preserving concatenations of the
sub-layers' own sequences, with the parameterless layers (activations,
dropout) contributing nothing to either. -/
theorem C4_sequential (exp : ℚ → ℚ) (rand : ℕ → ℚ) (k : ℕ) (x g : Tensor)
    (ls ls₁ ls₂ : List Layer) (c : Option Tensor) (p : ℚ) (tr : Bool) (mk : Option Tensor) :
    (forward exp rand (.seq ls) k x =
      (forwardList exp rand ls k x).map fun r => (r.1, Layer.seq r.2.1, r.2.2)) ∧
    (forwardList exp rand (ls₁ ++ ls₂) k x =
      forwardList exp rand ls₁ k x >>= fun r =>
        forwardList exp rand ls₂ r.1 r.2.2 >>= fun s => .ok (s.1, r.2.1 ++ s.2.1, s.2.2)) ∧
    (backward (.seq ls) g = (backwardList ls g).map fun r => (Layer.seq r.1, r.2)) ∧
    (backwardList (ls₁ ++ ls₂) g =
      backwardList ls₂ g >>= fun r =>
        backwardList ls₁ r.2 >>= fun s => .ok (s.1 ++ r.1, s.2)) ∧
    (params (.seq ls) = paramsList ls) ∧
    (paramsList (ls₁ ++ ls₂) = paramsList ls₁ ++ paramsList ls₂) ∧
    (grads (.seq ls) = gradsList ls) ∧
    (gradsList (ls₁ ++ ls₂) = gradsList ls₁ >>= fun a => (gradsList ls₂).map fun c => a ++ c) ∧
    (params (.sigmoid c) = [] ∧ params (.tanhL c) = [] ∧ params (.relu c) = [] ∧
      params (.dropout p tr mk) = []) ∧
    (grads (.sigmoid c) = some [] ∧ grads (.tanhL c) = some [] ∧ grads (.relu c) = some [] ∧
      grads (.dropout p tr mk) = some []) := by
  refine ⟨?_, forwardList_append exp rand ls₁ ls₂ k x, ?_,
    backwardList_append ls₁ ls₂ g, rfl, paramsList_append ls₁ ls₂, rfl,
    gradsList_append ls₁ ls₂, ⟨rfl, rfl, rfl, rfl⟩, ⟨rfl, rfl, rfl, rfl⟩⟩
  · cases h : forwardList exp rand ls k x <;> simp [forward, h, Except.map]
  · cases h : backwardList ls g <;> simp [backward, h, Except.map]

/-- C1: a `Linear(n, m)` layer's `forward` caches the rank-1 input `x`;
`backward` on a rank-1 gradient `g` of length `m` stores the bias
gradient equal to `g` unchanged, stores the weight gradient as the
outer product `w_grad[o][i] = x[i] * g[o]`, and returns the input
gradient `i ↦ Σ_o w[o][i] * g[o]` (the transpose-matrix/vector
product); `params` returns `[w, b]` and `grads` returns
`[w_grad, b_grad]` in that positional order. -/
theorem C1_linear_backward (exp : ℚ → ℚ) (rand : ℕ → ℚ) (k : ℕ) (n m : ℕ)
    (w : List (List ℚ)) (b x g : List ℚ)
    (hw : w.length = m) (hrows : ∀ r ∈ w, r.length = n) (hb : b.length = m)
    (hx : x.length = n) (hg : g.length = m) :
    (∃ out, forward exp rand (.linear n m w b none none none) k (.vec x) =
        .ok (k, .linear n m w b (some x) none none, out)) ∧
    (∃ wg ig,
      backward (.linear n m w b (some x) none none) (.vec g) =
        .ok (.linear n m w b (some x) (some wg) (some g), .vec ig) ∧
      wg.length = m ∧ (∀ r ∈ wg, r.length = n) ∧
      (∀ o, o < m → ∀ i, i < n → (wg.getD o []).getD i 0 = x.getD i 0 * g.getD o 0) ∧
      ig.length = n ∧
      (∀ i, i < n →
        ig.getD i 0 = ((List.range m).map fun o => (w.getD o []).getD i 0 * g.getD o 0).sum) ∧
      params (.linear n m w b (some x) (some wg) (some g)) = [.ten (w.map .vec), .vec b] ∧
      grads (.linear n m w b (some x) (some wg) (some g)) = some [.ten (wg.map .vec), .vec g]) := by
  have hguard1 : m ≤ w.length ∧ m ≤ b.length ∧ ∀ r ∈ w.take m, r.length = x.length := by
    refine ⟨hw.ge, hb.ge, fun r hr => ?_⟩
    rw [hrows r (List.mem_of_mem_take hr), hx]
  have hguard2 : m ≤ w.length ∧ (∀ r ∈ w.take m, n ≤ r.length) ∧ n ≤ x.length ∧ m ≤ g.length :=
    ⟨hw.ge, fun r hr => (hrows r (List.mem_of_mem_take hr)).ge, hx.ge, hg.ge⟩
  constructor
  · refine ⟨.vec ((List.range m).map fun o => dotL x (w.getD o []) + b.getD o 0), ?_⟩
    simp only [forward]
    rw [if_pos hguard1]
  · refine ⟨(List.range m).map fun o => (List.range n).map fun i => x.getD i 0 * g.getD o 0,
      (List.range n).map fun i =>
        ((List.range m).map fun o => (w.getD o []).getD i 0 * g.getD o 0).sum,
      ?_, by simp, ?_, ?_, by simp, fun i hi => ?_, rfl, rfl⟩
    · simp only [backward]
      rw [if_pos hguard2]
    · intro r hr
      simp only [List.mem_map] at hr
      obtain ⟨o, -, rfl⟩ := hr
      simp
    · intro o ho i hi
      simp [List.getD_eq_getElem?_getD, List.getElem?_map, List.getElem?_range, ho, hi]
    · simp [List.getD_eq_getElem?_getD, List.getElem?_map, List.getElem?_range, hi]

/-- Witness for C1: a `Linear(1, 1)` layer with weight `[[2]]`, bias
`[3]`, cached input `[4]` and incoming gradient `[5]`. -/
theorem C1_witness :
    (([[2]] : List (List ℚ)).length = 1) ∧ (∀ r ∈ ([[2]] : List (List ℚ)), r.length = 1) ∧
    (([3] : List ℚ).length = 1) ∧ (([4] : List ℚ).length = 1) ∧ (([5] : List ℚ).length = 1) ∧
    ((∃ out, forward (fun z => z) (fun _ => 0) (.linear 1 1 [[2]] [3] none none none) 7 (.vec [4]) =
        .ok (7, .linear 1 1 [[2]] [3] (some [4]) none none, out)) ∧
     (∃ wg ig,
        backward (.linear 1 1 [[2]] [3] (some [4]) none none) (.vec [5]) =
          .ok (.linear 1 1 [[2]] [3] (some [4]) (some wg) (some [5]), .vec ig) ∧
        wg.length = 1 ∧ (∀ r ∈ wg, r.length = 1) ∧
        (∀ o, o < 1 → ∀ i, i < 1 →
          (wg.getD o []).getD i 0 = ([4] : List ℚ).getD i 0 * ([5] : List ℚ).getD o 0) ∧
        ig.length = 1 ∧
        (∀ i, i < 1 → ig.getD i 0 = ((List.range 1).map fun o =>
          (([[2]] : List (List ℚ)).getD o []).getD i 0 * ([5] : List ℚ).getD o 0).sum) ∧
        params (.linear 1 1 [[2]] [3] (some [4]) (some wg) (some [5])) =
          [.ten (([[2]] : List (List ℚ)).map .vec), .vec [3]] ∧
        grads (.linear 1 1 [[2]] [3] (some [4]) (some wg) (some [5])) =
          some [.ten (wg.map .vec), .vec [5]])) := by
  refine ⟨rfl, ?_, rfl, rfl, rfl, ?_⟩
  · intro r hr
    simp only [List.mem_singleton] at hr
    simp [hr]
  · exact C1_linear_backward (fun z => z) (fun _ => 0) 7 1 1 [[2]] [3] [4] [5] rfl
      (by intro r hr; simp only [List.mem_singleton] at hr; simp [hr]) rfl rfl rfl

/-- When velocities, parameters and gradients are positionally
shape-compatible, the `Momentum` loop succeeds and computes, per
position, the new velocity `mo*u + (1-mo)*g` and then the new parameter
`p - lr*u'` from that new velocity. -/
theorem momentumLoop_spec (mo lr : ℚ) :
    ∀ us ps gs : List Tensor,
      List.Forall₂ (fun u g => sameShape u g = true) us gs →
      List.Forall₂ (fun p g => sameShape p g = true) ps gs →
      momentumLoop mo lr us ps gs =
        some (List.zipWith (fun u g => combineTotal (fun u' g' => mo * u' + (1 - mo) * g') u g)
                us gs,
              List.zipWith (fun p v => combineTotal (fun p' u' => p' - lr * u') p v) ps
                (List.zipWith (fun u g => combineTotal (fun u' g' => mo * u' + (1 - mo) * g') u g)
                  us gs)) := by
  intro us
  induction us with
  | nil =>
      intro ps gs hug hpg
      cases hug
      cases hpg
      simp [momentumLoop]
  | cons u us ih =>
      intro ps gs hug hpg
      cases hug with
      | cons hug1 hug2 =>
          cases hpg with
          | cons hpg1 hpg2 =>
              have hvc := tensor_combine_eq_of_sameShape
                (fun u' g' => mo * u' + (1 - mo) * g') _ _ hug1
              have hvs := sameShape_combineTotal
                (fun u' g' => mo * u' + (1 - mo) * g') _ _ hug1
              have hpv := sameShape_trans _ _ _ hpg1 (sameShape_symm _ _ hvs)
              have hpc := tensor_combine_eq_of_sameShape
                (fun p' u' => p' - lr * u') _ _ hpv
              simp [momentumLoop, hvc, hpc, ih _ _ hug2 hpg2]

/-- C3: `Momentum.step`'s first call lazily allocates one velocity per
gradient as a zero-filled tensor of that gradient's shape and then, like
every call, updates each positional (velocity, parameter, gradient)
triple by `velocity ← mo*velocity + (1-mo)*gradient` followed by
`parameter ← parameter - lr*velocity` (with the fresh velocity),
element-wise.  In-place mutation is modelled by returning the new
velocity and parameter lists. -/
theorem C3_momentum_step (mo lr : ℚ) (ps gs : List Tensor)
    (hpg : List.Forall₂ (fun p g => sameShape p g = true) ps gs) :
    (∀ g ∈ gs, sameShape (zero_like g) g = true ∧ ∀ z ∈ tensorLeaves (zero_like g), z = 0) ∧
    momentumStep mo lr [] ps gs =
      some (List.zipWith (fun u g => combineTotal (fun u' g' => mo * u' + (1 - mo) * g') u g)
              (gs.map zero_like) gs,
            List.zipWith (fun p v => combineTotal (fun p' u' => p' - lr * u') p v) ps
              (List.zipWith (fun u g => combineTotal (fun u' g' => mo * u' + (1 - mo) * g') u g)
               (gs.map zero_like) gs)) ∧
    (∀ us, us ≠ [] → List.Forall₂ (fun u g => sameShape u g = true) us gs →
      momentumStep mo lr us ps gs =
        some (List.zipWith (fun u g => combineTotal (fun u' g' => mo * u' + (1 - mo) * g') u g)
                us gs,
              List.zipWith (fun p v => combineTotal (fun p' u' => p' - lr * u') p v) ps
                (List.zipWith (fun u g => combineTotal (fun u' g' => mo * u' + (1 - mo) * g') u g)
                  us gs))) := by
  refine ⟨fun g _ => zero_like_spec g, ?_, ?_⟩
  · have hzg : List.Forall₂ (fun u g => sameShape u g = true) (gs.map zero_like) gs := by
      rw [List.forall₂_map_left_iff]
      exact List.forall₂_same.2 fun g _ => (zero_like_spec g).1
    simpa [momentumStep] using momentumLoop_spec mo lr _ _ _ hzg hpg
  · intro us hne hug
    have hemp : us.isEmpty = false := by
      cases us with
      | nil => exact absurd rfl hne
      | cons a l => rfl
    rw [momentumStep, hemp]
    simpa using momentumLoop_spec mo lr _ _ _ hug hpg

/-- Witness for C3: one parameter tensor `[1]`, one gradient `[2]`, with
`mo = 9/10` and `lr = 1/10`: the first step gives velocity
`[9/10·0 + 1/10·2] = [1/5]` and parameter `[1 - 1/10·1/5] = [49/50]`. -/
theorem C3_witness :
    List.Forall₂ (fun p g => sameShape p g = true) [Tensor.vec [1]] [Tensor.vec [2]] ∧
    momentumStep (9 / 10) (1 / 10) [] [Tensor.vec [1]] [Tensor.vec [2]] =
      some ([Tensor.vec [1 / 5]], [Tensor.vec [49 / 50]]) := by
  have hpg : List.Forall₂ (fun p g => sameShape p g = true) [Tensor.vec [1]] [Tensor.vec [2]] :=
    List.Forall₂.cons rfl List.Forall₂.nil
  have h := C3_momentum_step (9 / 10) (1 / 10) [Tensor.vec [1]] [Tensor.vec [2]] hpg
  refine ⟨hpg, ?_⟩
  rw [h.2.1]
  norm_num [zero_like, tensor_apply, combineTotal]

/-- Lemma: `random_normal` consumes exactly one uniform draw per leaf, and each
leaf is `mean + variance * invCdf(draw)`, with the draws taken in
sequence. -/
theorem random_normal_leaves (invCdf : ℚ → ℚ) (rand : ℕ → ℚ) (mean variance : ℚ) :
    ∀ dims : List ℕ, dims ≠ [] → ∀ k : ℕ,
      ∃ t, random_normal invCdf rand mean variance dims k = some (k + dims.prod, t) ∧
        tensorLeaves t = (List.range dims.prod).map fun i =>
          mean + variance * invCdf (rand (k + i)) := by
  intro dims
  induction dims with
  | nil => intro h; exact absurd rfl h
  | cons d rest ih =>
      cases rest with
      | nil =>
          intro _ k
          refine ⟨.vec ((List.range d).map fun i => mean + variance * invCdf (rand (k + i))),
            ?_, ?_⟩
          · simp [random_normal]
          · simp [tensorLeaves]
      | cons d' rest' =>
          intro _ k
          have hinner : ∀ n k₀, ∃ ts,
              random_normalList invCdf rand mean variance (d' :: rest') n k₀ =
                some (k₀ + n * (d' :: rest').prod, ts) ∧
              tensorLeavesList ts = (List.range (n * (d' :: rest').prod)).map fun i =>
                mean + variance * invCdf (rand (k₀ + i)) := by
            intro n
            induction n with
            | zero =>
                intro k₀
                exact ⟨[], by simp [random_normalList], by simp [tensorLeavesList]⟩
            | succ n ihn =>
                intro k₀
                obtain ⟨t, ht, hlt⟩ := ih (by simp) k₀
                obtain ⟨ts, hts, hlts⟩ := ihn (k₀ + (d' :: rest').prod)
                refine ⟨t :: ts, ?_, ?_⟩
                · have hcount : k₀ + (d' :: rest').prod + n * (d' :: rest').prod =
                      k₀ + (n + 1) * (d' :: rest').prod := by ring
                  set P := (d' :: rest').prod with hP
                  simp only [random_normalList, ht]
                  simp [hts, hcount]
                · have hsplit : (n + 1) * (d' :: rest').prod =
                      (d' :: rest').prod + n * (d' :: rest').prod := by ring
                  simp only [tensorLeavesList, hlt, hlts, hsplit, List.range_add,
                    List.map_append, List.map_map]
                  congr 1
                  apply List.map_congr_left
                  intro a _
                  simp only [Function.comp]
                  rw [Nat.add_assoc]
          obtain ⟨ts, hts, hlts⟩ := hinner d k
          refine ⟨.ten ts, ?_, ?_⟩
          · simp only [random_normal, hts, Option.map_some', List.prod_cons]
          · simp only [tensorLeaves, hlts, List.prod_cons]

/-- C5 counterexample: with `inverse_normal_cdf` modelled as the
identity and a uniform stream of `1`s, `random_normal` with mean `0`
and variance `4` produces the leaf `0 + 4·1 = 4`, whereas the claimed
`mean + sqrt(variance)·z` would give `0 + √4·1 = 2 ≠ 4`: the source
multiplies by `variance` itself, not by its square root. -/
theorem C5_counterexample :
    random_normal (fun z => z) (fun _ => 1) 0 4 [1] 0 = some (1, .vec [4]) ∧
    (0 : ℝ) + Real.sqrt 4 * 1 = 2 ∧ (4 : ℚ) ≠ 2 := by
  refine ⟨?_, ?_, by norm_num⟩
  · norm_num [random_normal]
  · rw [show (4 : ℝ) = 2 ^ 2 by norm_num, Real.sqrt_sq (by norm_num : (0 : ℝ) ≤ 2)]
    norm_num

/-- C5 (amended): for every nonempty dimension list, `random_normal`
produces one leaf per index, each equal to
`mean + variance * inverse_normal_cdf(uniform draw)` — the source scales
by `variance` itself (not `sqrt variance` as the spec claims) — drawing
independent (sequentially indexed) uniforms; and `xavier` computes
`variance = len(dims) / sum(dims)` and delegates to `random_normal`
with mean `0` and that variance. -/
theorem C5_random_normal_and_xavier (invCdf : ℚ → ℚ) (rand : ℕ → ℚ) (mean variance : ℚ)
    (dims : List ℕ) (k : ℕ) (hdims : dims ≠ []) :
    (∃ t, random_normal invCdf rand mean variance dims k = some (k + dims.prod, t) ∧
      tensorLeaves t = (List.range dims.prod).map fun i =>
        mean + variance * invCdf (rand (k + i))) ∧
    random_tensor invCdf rand dims "xavier" k =
      random_normal invCdf rand 0 ((dims.length : ℚ) / ((dims.sum : ℕ) : ℚ)) dims k := by
  refine ⟨random_normal_leaves invCdf rand mean variance dims hdims k, ?_⟩
  simp [random_tensor]

/-- Witness for C5 (amended): dimension list `[2]`, mean `3`,
variance `5`. -/
theorem C5_witness :
    ([2] : List ℕ) ≠ [] ∧
    ((∃ t, random_normal (fun z => z) (fun _ => 1) 3 5 [2] 0 =
        some (0 + ([2] : List ℕ).prod, t) ∧
      tensorLeaves t = (List.range ([2] : List ℕ).prod).map fun i =>
        3 + 5 * (fun z => z) ((fun _ : ℕ => (1 : ℚ)) (0 + i))) ∧
    random_tensor (fun z => z) (fun _ => 1) [2] "xavier" 0 =
      random_normal (fun z => z) (fun _ => 1) 0
        ((([2] : List ℕ).length : ℚ) / ((([2] : List ℕ).sum : ℕ) : ℚ)) [2] 0) := by
  exact ⟨by simp, C5_random_normal_and_xavier (fun z => z) (fun _ => 1) 3 5 [2] 0 (by simp)⟩

end DL
